import Mathlib

set_option maxRecDepth 100000

/-!
Verification of the algebraixlib data-algebra core: atoms, couplets,
relations, multisets and multiclans, with the operations defined in
`docs/algebraReference.rst` and exercised in `examples/Hello_Multisets.ipynb`.

The Python modules `algebraixlib/algebras/*.py` are not present in the
source tree; every operation below is modelled from the specification's
mathematical definitions (the glossary of `algebraReference.rst`) and is
checked against the concrete outputs recorded in the notebooks.
-/

/-- Modelled from the spec: the scalar values wrapped by an `Atom`
(`mathobjects/atom.py` is missing). The spec requires values of different
type (e.g. integer `1` and string `"1"`) to compare not-equal, so values
carry their type as a constructor tag. -/
inductive Value where
  | int : Int → Value
  | str : String → Value
deriving DecidableEq

/-- Modelled from the spec: an `Atom` wraps a single scalar value. -/
structure Atom where
  value : Value
deriving DecidableEq

/-- Modelled from the spec: Python-style equality on wrapped values —
equal only when the types are compatible and the values are equal; never
raises, never coerces across types. -/
def pyEq : Value → Value → Bool
  | .int m, .int n => m == n
  | .str s, .str t => s == t
  | _, _ => false

/-- Modelled from the spec: `Atom.__eq__`, comparing the wrapped values
with the type-respecting comparison `pyEq`. -/
def atomEq (a b : Atom) : Bool :=
  pyEq a.value b.value

/-- Modelled from the spec: a `Couplet` is an ordered pair with a left
component and a right component. In the worked examples both components
are atoms, modelled here by their wrapped values. -/
structure Couplet where
  left : Value
  right : Value
deriving DecidableEq

/-- A relation: a set of couplets. -/
abbrev Reln := Finset Couplet

/-- A multiset of values (`algebraixlib`'s `Multiset` over atoms);
the multiplicity of a value is its count. -/
abbrev Mset := Multiset Value

/-- A multiclan: a multiset of relations. -/
abbrev Mclan := Multiset Reln

/-- Shorthand for a couplet of two string atoms, as built by
`Couplet('x', 'y')` in the notebooks. -/
def cp (l r : String) : Couplet :=
  ⟨.str l, .str r⟩

namespace relations

/-- Modelled from the spec: transposition of a couplet swaps its left and
right components. -/
def transposeCouplet (c : Couplet) : Couplet :=
  ⟨c.right, c.left⟩

/-- Modelled from the spec: transposition of a relation transposes every
member couplet (the unary extension of couplet transposition). -/
def transpose (r : Reln) : Reln :=
  r.image transposeCouplet

/-- Modelled from the spec: composition of relations.
`compose r2 r1 = {x↦z : x↦y ∈ r1, y↦z ∈ r2}` — the binary extension of
couplet composition `c↦d ∘ a↦b = a↦d iff b = c`, keeping only the defined
compositions. The first argument is the outer relation. -/
def compose (r2 r1 : Reln) : Reln :=
  ((r1 ×ˢ r2).filter fun p => p.1.right = p.2.left).image fun p =>
    ⟨p.1.left, p.2.right⟩

/-- Modelled from the spec: a relation is left-functional when no left
component is mapped to two distinct right components. -/
def is_left_functional (r : Reln) : Prop :=
  ∀ c1 ∈ r, ∀ c2 ∈ r, c1.left = c2.left → c1.right = c2.right

instance (r : Reln) : Decidable (is_left_functional r) := by
  unfold is_left_functional
  infer_instance

/-- Modelled from the spec: the left-functional union of two relations is
their plain union if that union is left-functional, otherwise undefined
(`none` models `Undef`). -/
def functional_union (r q : Reln) : Option Reln :=
  if is_left_functional (r ∪ q) then some (r ∪ q) else none

/-- Modelled from the spec: substriction returns the left operand
unchanged iff it is a subset of the right operand, else undefined. -/
def substrict (a b : Reln) : Option Reln :=
  if a ⊆ b then some a else none

/-- Modelled from the spec: superstriction returns the left operand
unchanged iff it is a superset of the right operand, else undefined. -/
def superstrict (a b : Reln) : Option Reln :=
  if b ⊆ a then some a else none

end relations

namespace multisets

/-- Modelled from the spec: multiset union, with per-element multiplicity
`max(S(x), T(x))`. -/
def union (s t : Mset) : Mset := s ∪ t

/-- Modelled from the spec: multiset intersection, with per-element
multiplicity `min(S(x), T(x))`. -/
def intersect (s t : Mset) : Mset := s ∩ t

/-- Modelled from the spec: multiset addition, with per-element
multiplicity `S(x) + T(x)`. -/
def add (s t : Mset) : Mset := s + t

/-- Modelled from the spec: multiset difference, keeping an element only
when `S(x) - T(x) > 0` (non-positive multiplicities are dropped; natural
subtraction models the floor at zero). -/
def minus (s t : Mset) : Mset := s - t

/-- Modelled from the spec: `get_multiplicity` returns the multiplicity
of an element, `0` when the element is absent. -/
def get_multiplicity (s : Mset) (x : Value) : ℕ := s.count x

end multisets

namespace multiclans

/-- Modelled from the spec: multi-cross-union — the binary
multi-extension of relation union; each pair `(R, Q)` contributes the
relation `R ∪ Q` with multiplicity `C(R)·D(Q)`, and pairs producing the
same union accumulate by summation. -/
def cross_union (c d : Mclan) : Mclan :=
  c.bind fun r => d.map fun q => r ∪ q

/-- Modelled from the spec: multi-cross-intersection — the binary
multi-extension of relation intersection. -/
def cross_intersect (c d : Mclan) : Mclan :=
  c.bind fun r => d.map fun q => r ∩ q

/-- Modelled from the spec: multiclan composition — the binary
multi-extension of relation composition; the multiplicity of a produced
relation `R2∘R1` accumulates `C2(R2)·C1(R1)` over all producing pairs. -/
def compose (c2 c1 : Mclan) : Mclan :=
  c2.bind fun r2 => c1.map fun r1 => relations.compose r2 r1

/-- Modelled from the spec: multiclan transposition transposes every
member relation and leaves multiplicities unchanged. -/
def transpose (c : Mclan) : Mclan :=
  c.map relations.transpose

/-- Modelled from the spec: multi-cross-substriction — defined as
cross-substriction with result multiplicity `S(X)` (the left operand's
multiplicity), per the glossary equation `S ◁ T (X ◁ Y) = S(X)`. -/
def cross_substrict (s t : Mclan) : Mclan :=
  s.filter fun x => ∃ y ∈ t.toFinset, x ⊆ y

/-- Modelled from the spec: multi-cross-superstriction — defined as
cross-superstriction with result multiplicity `S(X)`, per the glossary
equation `S ▷ T (X ▷ Y) = S(X)`. -/
def cross_superstrict (s t : Mclan) : Mclan :=
  s.filter fun x => ∃ y ∈ t.toFinset, y ⊆ x

end multiclans

/-! Concrete data from `Hello_Multisets.ipynb`. -/

/-- `ms_1 = Multiset({'a': 2, 'b': 3})` from the notebook. -/
def ms_1 : Mset :=
  Multiset.replicate 2 (.str "a") + Multiset.replicate 3 (.str "b")

/-- `ms_2 = Multiset(['b', 'b', 'c'])` from the notebook: duplicates in a
plain iterable are tallied into multiplicities. -/
def ms_2 : Mset :=
  ↑[Value.str "b", Value.str "b", Value.str "c"]

/-- `rel_1 = Set(Couplet('x', 'y'), Couplet('w', 'y'))`. -/
def rel_1 : Reln := {cp "x" "y", cp "w" "y"}

/-- `rel_2 = Set(Couplet('a', 'x'), Couplet('b', 'w'))`. -/
def rel_2 : Reln := {cp "a" "x", cp "b" "w"}

/-- `rel_3 = Set(Couplet('x', 'z'), Couplet('v', 'y'))`. -/
def rel_3 : Reln := {cp "x" "z", cp "v" "y"}

/-- `rel_4 = Set(Couplet('c', 'z'), Couplet('a', 'v'))`. -/
def rel_4 : Reln := {cp "c" "z", cp "a" "v"}

/-- `rel_5 = Set(Couplet('b', 'w'), Couplet('w', 'y'))`. -/
def rel_5 : Reln := {cp "b" "w", cp "w" "y"}

/-- `rel_6 = Set(Couplet('a', 'x'), Couplet('x', 'y'))`. -/
def rel_6 : Reln := {cp "a" "x", cp "x" "y"}

/-- `mc_1 = Multiset({rel_1: 2, rel_3: 3})`. -/
def mc_1 : Mclan := Multiset.replicate 2 rel_1 + Multiset.replicate 3 rel_3

/-- `mc_2 = Multiset({rel_2: 5, rel_4: 1})`. -/
def mc_2 : Mclan := Multiset.replicate 5 rel_2 + Multiset.replicate 1 rel_4

/-- `mc_3 = Multiset({rel_1: 2, rel_6: 7})`. -/
def mc_3 : Mclan := Multiset.replicate 2 rel_1 + Multiset.replicate 7 rel_6

/-- `mc_4 = Multiset({rel_2: 5, rel_5: 11})`. -/
def mc_4 : Mclan := Multiset.replicate 5 rel_2 + Multiset.replicate 11 rel_5

/-- A two-element demonstration multiclan `[rel_1: 2]`, used to contrast
the striction multiplicity rule with the product rule. -/
def mc_sub_demo_s : Mclan := Multiset.replicate 2 rel_1

/-- A demonstration multiclan `[rel_1 ∪ rel_2: 3]` whose single relation
is a superset of `rel_1`. -/
def mc_sub_demo_t : Mclan := Multiset.replicate 3 (rel_1 ∪ rel_2)

/-- Modelled from the spec: lifting a total binary operation to the
widened domain with `Undef` (`none`): the operation returns `Undef`
whenever either operand is `Undef`. -/
def lift2 {α β γ : Type} (f : α → β → γ) : Option α → Option β → Option γ
  | some a, some b => some (f a b)
  | _, _ => none

/-- Modelled from the spec: lifting a partial binary operation (one that
may itself return `Undef`) to the widened domain. -/
def olift2 {α β γ : Type} (f : α → β → Option γ) :
    Option α → Option β → Option γ
  | some a, some b => f a b
  | _, _ => none

/-- Expressions chaining the multiclan-algebra operations, with literals
that may be `Undef`; models arbitrarily long chains of operations. -/
inductive MExpr where
  | lit : Option Mclan → MExpr
  | cross_union : MExpr → MExpr → MExpr
  | cross_intersect : MExpr → MExpr → MExpr
  | comp : MExpr → MExpr → MExpr
  | cross_substrict : MExpr → MExpr → MExpr
  | cross_superstrict : MExpr → MExpr → MExpr
  | union : MExpr → MExpr → MExpr
  | intersect : MExpr → MExpr → MExpr
  | add : MExpr → MExpr → MExpr
  | minus : MExpr → MExpr → MExpr
  | transpose : MExpr → MExpr

/-- Evaluation of a multiclan expression over the `Undef`-widened
domain. -/
def MExpr.eval : MExpr → Option Mclan
  | .lit m => m
  | .cross_union a b => lift2 multiclans.cross_union a.eval b.eval
  | .cross_intersect a b => lift2 multiclans.cross_intersect a.eval b.eval
  | .comp a b => lift2 multiclans.compose a.eval b.eval
  | .cross_substrict a b => lift2 multiclans.cross_substrict a.eval b.eval
  | .cross_superstrict a b => lift2 multiclans.cross_superstrict a.eval b.eval
  | .union a b => lift2 (fun x y : Mclan => x ∪ y) a.eval b.eval
  | .intersect a b => lift2 (fun x y : Mclan => x ∩ y) a.eval b.eval
  | .add a b => lift2 (fun x y : Mclan => x + y) a.eval b.eval
  | .minus a b => lift2 (fun x y : Mclan => x - y) a.eval b.eval
  | .transpose a => a.eval.map multiclans.transpose

/-- Whether an `Undef` literal occurs anywhere in the expression. -/
def MExpr.hasUndef : MExpr → Bool
  | .lit m => m.isNone
  | .cross_union a b => a.hasUndef || b.hasUndef
  | .cross_intersect a b => a.hasUndef || b.hasUndef
  | .comp a b => a.hasUndef || b.hasUndef
  | .cross_substrict a b => a.hasUndef || b.hasUndef
  | .cross_superstrict a b => a.hasUndef || b.hasUndef
  | .union a b => a.hasUndef || b.hasUndef
  | .intersect a b => a.hasUndef || b.hasUndef
  | .add a b => a.hasUndef || b.hasUndef
  | .minus a b => a.hasUndef || b.hasUndef
  | .transpose a => a.hasUndef

/-- Expressions chaining the relation-algebra operations, including the
partial ones (`functional_union`, `substrict`, `superstrict`), with
literals that may be `Undef`. -/
inductive RExpr where
  | lit : Option Reln → RExpr
  | union : RExpr → RExpr → RExpr
  | intersect : RExpr → RExpr → RExpr
  | minus : RExpr → RExpr → RExpr
  | comp : RExpr → RExpr → RExpr
  | functional_union : RExpr → RExpr → RExpr
  | substrict : RExpr → RExpr → RExpr
  | superstrict : RExpr → RExpr → RExpr
  | transpose : RExpr → RExpr

/-- Evaluation of a relation expression over the `Undef`-widened
domain. -/
def RExpr.eval : RExpr → Option Reln
  | .lit r => r
  | .union a b => lift2 (fun x y : Reln => x ∪ y) a.eval b.eval
  | .intersect a b => lift2 (fun x y : Reln => x ∩ y) a.eval b.eval
  | .minus a b => lift2 (fun x y : Reln => x \ y) a.eval b.eval
  | .comp a b => lift2 relations.compose a.eval b.eval
  | .functional_union a b => olift2 relations.functional_union a.eval b.eval
  | .substrict a b => olift2 relations.substrict a.eval b.eval
  | .superstrict a b => olift2 relations.superstrict a.eval b.eval
  | .transpose a => a.eval.map relations.transpose

/-- Whether an `Undef` literal occurs anywhere in the expression. -/
def RExpr.hasUndef : RExpr → Bool
  | .lit r => r.isNone
  | .union a b => a.hasUndef || b.hasUndef
  | .intersect a b => a.hasUndef || b.hasUndef
  | .minus a b => a.hasUndef || b.hasUndef
  | .comp a b => a.hasUndef || b.hasUndef
  | .functional_union a b => a.hasUndef || b.hasUndef
  | .substrict a b => a.hasUndef || b.hasUndef
  | .superstrict a b => a.hasUndef || b.hasUndef
  | .transpose a => a.hasUndef

lemma lift2_none {α β γ : Type} (f : α → β → γ) (a : Option α) (b : Option β)
    (h : a = none ∨ b = none) : lift2 f a b = none := by
  rcases h with h | h
  · subst h
    cases b <;> rfl
  · subst h
    cases a <;> rfl

lemma olift2_none {α β γ : Type} (f : α → β → Option γ) (a : Option α)
    (b : Option β) (h : a = none ∨ b = none) : olift2 f a b = none := by
  rcases h with h | h
  · subst h
    cases b <;> rfl
  · subst h
    cases a <;> rfl

lemma mexpr_eval_undef : ∀ e : MExpr, e.hasUndef = true → e.eval = none := by
  intro e
  induction e with
  | lit m =>
    intro h
    simpa [MExpr.hasUndef, Option.isNone_iff_eq_none, MExpr.eval] using h
  | transpose a iha =>
    intro h
    simp only [MExpr.hasUndef] at h
    simp only [MExpr.eval, iha h]
    rfl
  | cross_union a b iha ihb =>
    intro h
    simp only [MExpr.hasUndef, Bool.or_eq_true] at h
    simp only [MExpr.eval]
    exact lift2_none _ _ _ (h.imp iha ihb)
  | cross_intersect a b iha ihb =>
    intro h
    simp only [MExpr.hasUndef, Bool.or_eq_true] at h
    simp only [MExpr.eval]
    exact lift2_none _ _ _ (h.imp iha ihb)
  | comp a b iha ihb =>
    intro h
    simp only [MExpr.hasUndef, Bool.or_eq_true] at h
    simp only [MExpr.eval]
    exact lift2_none _ _ _ (h.imp iha ihb)
  | cross_substrict a b iha ihb =>
    intro h
    simp only [MExpr.hasUndef, Bool.or_eq_true] at h
    simp only [MExpr.eval]
    exact lift2_none _ _ _ (h.imp iha ihb)
  | cross_superstrict a b iha ihb =>
    intro h
    simp only [MExpr.hasUndef, Bool.or_eq_true] at h
    simp only [MExpr.eval]
    exact lift2_none _ _ _ (h.imp iha ihb)
  | union a b iha ihb =>
    intro h
    simp only [MExpr.hasUndef, Bool.or_eq_true] at h
    simp only [MExpr.eval]
    exact lift2_none _ _ _ (h.imp iha ihb)
  | intersect a b iha ihb =>
    intro h
    simp only [MExpr.hasUndef, Bool.or_eq_true] at h
    simp only [MExpr.eval]
    exact lift2_none _ _ _ (h.imp iha ihb)
  | add a b iha ihb =>
    intro h
    simp only [MExpr.hasUndef, Bool.or_eq_true] at h
    simp only [MExpr.eval]
    exact lift2_none _ _ _ (h.imp iha ihb)
  | minus a b iha ihb =>
    intro h
    simp only [MExpr.hasUndef, Bool.or_eq_true] at h
    simp only [MExpr.eval]
    exact lift2_none _ _ _ (h.imp iha ihb)

lemma rexpr_eval_undef : ∀ e : RExpr, e.hasUndef = true → e.eval = none := by
  intro e
  induction e with
  | lit r =>
    intro h
    simpa [RExpr.hasUndef, Option.isNone_iff_eq_none, RExpr.eval] using h
  | transpose a iha =>
    intro h
    simp only [RExpr.hasUndef] at h
    simp only [RExpr.eval, iha h]
    rfl
  | union a b iha ihb =>
    intro h
    simp only [RExpr.hasUndef, Bool.or_eq_true] at h
    simp only [RExpr.eval]
    exact lift2_none _ _ _ (h.imp iha ihb)
  | intersect a b iha ihb =>
    intro h
    simp only [RExpr.hasUndef, Bool.or_eq_true] at h
    simp only [RExpr.eval]
    exact lift2_none _ _ _ (h.imp iha ihb)
  | minus a b iha ihb =>
    intro h
    simp only [RExpr.hasUndef, Bool.or_eq_true] at h
    simp only [RExpr.eval]
    exact lift2_none _ _ _ (h.imp iha ihb)
  | comp a b iha ihb =>
    intro h
    simp only [RExpr.hasUndef, Bool.or_eq_true] at h
    simp only [RExpr.eval]
    exact lift2_none _ _ _ (h.imp iha ihb)
  | functional_union a b iha ihb =>
    intro h
    simp only [RExpr.hasUndef, Bool.or_eq_true] at h
    simp only [RExpr.eval]
    exact olift2_none _ _ _ (h.imp iha ihb)
  | substrict a b iha ihb =>
    intro h
    simp only [RExpr.hasUndef, Bool.or_eq_true] at h
    simp only [RExpr.eval]
    exact olift2_none _ _ _ (h.imp iha ihb)
  | superstrict a b iha ihb =>
    intro h
    simp only [RExpr.hasUndef, Bool.or_eq_true] at h
    simp only [RExpr.eval]
    exact olift2_none _ _ _ (h.imp iha ihb)

/-! Helper lemmas about counts of mapped and bound multisets, used to
express the multiplicity law of the binary multi-extension. -/

/-- The count of `u` in a mapped multiset, as a sum over the distinct
elements of the source weighted by their multiplicities. -/
lemma count_map_eq_sum_toFinset {α β : Type} [DecidableEq α] [DecidableEq β]
    (d : Multiset β) (f : β → α) (u : α) :
    (d.map f).count u = ∑ q ∈ d.toFinset, if u = f q then d.count q else 0 := by
  rw [Multiset.count_map, ← Multiset.toFinset_sum_count_eq,
    Multiset.toFinset_filter, Finset.sum_filter]
  refine Finset.sum_congr rfl fun a _ => ?_
  by_cases h : u = f a <;> simp [h, Multiset.count_filter]

/-- The sum of a mapped multiset, as a weighted sum over distinct
elements. -/
lemma sum_map_eq_sum_toFinset {β : Type} [DecidableEq β]
    (c : Multiset β) (g : β → ℕ) :
    (c.map g).sum = ∑ r ∈ c.toFinset, c.count r * g r := by
  rw [Finset.sum_multiset_map_count]
  refine Finset.sum_congr rfl fun a _ => ?_
  rw [smul_eq_mul]

/-- Multiplicity law of the binary multi-extension: the count of `u` in
`c.bind (fun r => d.map (f r))` is the sum of `c.count r * d.count q`
over all pairs `(r, q)` of distinct elements with `f r q = u`. -/
lemma count_bind_map {α β γ : Type} [DecidableEq α] [DecidableEq β] [DecidableEq γ]
    (c : Multiset α) (d : Multiset β) (f : α → β → γ) (u : γ) :
    (c.bind fun r => d.map (f r)).count u =
      ∑ r ∈ c.toFinset, ∑ q ∈ d.toFinset,
        if u = f r q then c.count r * d.count q else 0 := by
  rw [Multiset.count_bind, sum_map_eq_sum_toFinset]
  refine Finset.sum_congr rfl fun r _ => ?_
  rw [count_map_eq_sum_toFinset, Finset.mul_sum]
  refine Finset.sum_congr rfl fun q _ => ?_
  by_cases h : u = f r q <;> simp [h]

/-- C1: for all multiclans, `multi_cross_union` assigns each result
relation `U` the multiplicity `Σ C(R)·D(Q)` over all pairs `(R, Q)` with
`R ∪ Q = U`; concretely, in `cross_union(mc_3, mc_4)` the relation
`{a↦x, b↦w, w↦y, x↦y}` has multiplicity `7·11 + 2·5 = 87`. -/
theorem multi_cross_union_multiplicity :
    (∀ (c d : Mclan) (u : Reln),
      (multiclans.cross_union c d).count u =
        ∑ r ∈ c.toFinset, ∑ q ∈ d.toFinset,
          if u = r ∪ q then c.count r * d.count q else 0)
    ∧ (multiclans.cross_union mc_3 mc_4).count
        ({cp "a" "x", cp "b" "w", cp "w" "y", cp "x" "y"} : Reln) = 7 * 11 + 2 * 5 := by
  constructor
  · intro c d u
    exact count_bind_map c d (fun r q => r ∪ q) u
  · decide

/-- C2 counterexample: the relation `{a↦y, b↦y, x↦z}` claimed for
`cross_union(mc_1, mc_2)` does not occur in that result at all (its
multiplicity is 0, not 10). -/
theorem cross_union_mc1_mc2_counterexample :
    (multiclans.cross_union mc_1 mc_2).count
        ({cp "a" "y", cp "b" "y", cp "x" "z"} : Reln) = 0
    ∧ (multiclans.cross_union mc_1 mc_2).count
        ({cp "a" "y", cp "b" "y", cp "x" "z"} : Reln) ≠ 10 := by
  decide

/-- C2 (amended): `cross_union(mc_1, mc_2)` produces the relation
`rel_1 ∪ rel_2 = {a↦x, b↦w, w↦y, x↦y}` with multiplicity `2·5 = 10`. -/
theorem cross_union_mc1_mc2_amended :
    (multiclans.cross_union mc_1 mc_2).count (rel_1 ∪ rel_2) = 2 * 5
    ∧ rel_1 ∪ rel_2 = ({cp "a" "x", cp "b" "w", cp "w" "y", cp "x" "y"} : Reln) := by
  decide

/-- C3: multiclan composition treats the empty relation as an ordinary
result element: `compose(mc_1, mc_2)` contains the empty relation with
multiplicity 2, and `compose(mc_2, mc_1)` is exactly the multiclan
mapping the empty relation to multiplicity 30. -/
theorem multiclan_compose_empty_relation :
    (multiclans.compose mc_1 mc_2).count (∅ : Reln) = 2
    ∧ multiclans.compose mc_2 mc_1 = Multiset.replicate 30 (∅ : Reln) := by
  decide

/-- C4: multiset union takes the maximum and multiset intersection the
minimum of the multiplicities of each element; concretely
`union(ms_1, ms_2) = ['a':2, 'b':3, 'c':1]` and
`intersect(ms_1, ms_2) = ['b':2]`. -/
theorem multiset_union_intersect_multiplicity :
    (∀ (s t : Mset) (x : Value),
      multisets.get_multiplicity (multisets.union s t) x =
        max (multisets.get_multiplicity s x) (multisets.get_multiplicity t x)
      ∧ multisets.get_multiplicity (multisets.intersect s t) x =
        min (multisets.get_multiplicity s x) (multisets.get_multiplicity t x))
    ∧ multisets.union ms_1 ms_2 =
        Multiset.replicate 2 (.str "a") + Multiset.replicate 3 (.str "b") +
          Multiset.replicate 1 (.str "c")
    ∧ multisets.intersect ms_1 ms_2 = Multiset.replicate 2 (.str "b") := by
  refine ⟨fun s t x => ⟨?_, ?_⟩, by decide, by decide⟩
  · simp only [multisets.union, multisets.get_multiplicity]
    exact Multiset.count_union x s t
  · simp only [multisets.intersect, multisets.get_multiplicity]
    exact Multiset.count_inter x s t

/-- C5: every multiset produced by the modelled operations gives each
present element a multiplicity of at least 1; the difference drops an
element whenever its multiplicity would fall to 0 or below, and
`minus(['a':2], ['a':3])` is the (defined) empty multiset. -/
theorem multiplicity_positivity_invariant :
    (∀ (s t : Mset) (x : Value),
      (x ∈ multisets.union s t ↔
        1 ≤ multisets.get_multiplicity (multisets.union s t) x)
      ∧ (x ∈ multisets.intersect s t ↔
        1 ≤ multisets.get_multiplicity (multisets.intersect s t) x)
      ∧ (x ∈ multisets.add s t ↔
        1 ≤ multisets.get_multiplicity (multisets.add s t) x)
      ∧ (x ∈ multisets.minus s t ↔
        1 ≤ multisets.get_multiplicity (multisets.minus s t) x)
      ∧ multisets.get_multiplicity (multisets.minus s t) x =
          multisets.get_multiplicity s x - multisets.get_multiplicity t x
      ∧ (x ∈ multisets.minus s t ↔
          multisets.get_multiplicity t x < multisets.get_multiplicity s x))
    ∧ (∀ (c d : Mclan) (r : Reln),
      (r ∈ multiclans.cross_union c d ↔ 1 ≤ (multiclans.cross_union c d).count r)
      ∧ (r ∈ multiclans.compose c d ↔ 1 ≤ (multiclans.compose c d).count r)
      ∧ (r ∈ multiclans.cross_substrict c d ↔
          1 ≤ (multiclans.cross_substrict c d).count r))
    ∧ multisets.minus (Multiset.replicate 2 (Value.str "a"))
        (Multiset.replicate 3 (Value.str "a")) = 0 := by
  refine ⟨fun s t x => ⟨?_, ?_, ?_, ?_, ?_, ?_⟩, fun c d r => ⟨?_, ?_, ?_⟩, by decide⟩
  · exact Multiset.one_le_count_iff_mem.symm
  · exact Multiset.one_le_count_iff_mem.symm
  · exact Multiset.one_le_count_iff_mem.symm
  · exact Multiset.one_le_count_iff_mem.symm
  · simp only [multisets.minus, multisets.get_multiplicity]
    exact Multiset.count_sub x s t
  · simp only [multisets.minus, multisets.get_multiplicity,
      ← Multiset.one_le_count_iff_mem, Multiset.count_sub]
    omega
  · exact Multiset.one_le_count_iff_mem.symm
  · exact Multiset.one_le_count_iff_mem.symm
  · exact Multiset.one_le_count_iff_mem.symm

/-- C6: `functional_union(R, Q)` is `Undef` iff the plain union `R ∪ Q`
maps some left component to two distinct right components; when `R ∪ Q`
is left-functional, the result is `R ∪ Q` itself. -/
theorem functional_union_undef_iff :
    ∀ r q : Reln,
      (relations.functional_union r q = none ↔
        ∃ x y z : Value, (⟨x, y⟩ : Couplet) ∈ r ∪ q ∧ (⟨x, z⟩ : Couplet) ∈ r ∪ q ∧ y ≠ z)
      ∧ (relations.is_left_functional (r ∪ q) →
          relations.functional_union r q = some (r ∪ q)) := by
  intro r q
  constructor
  · by_cases h : relations.is_left_functional (r ∪ q)
    · simp only [relations.functional_union, if_pos h]
      constructor
      · intro hsome
        exact absurd hsome (Option.some_ne_none _)
      · rintro ⟨x, y, z, hxy, hxz, hne⟩
        exact absurd (h _ hxy _ hxz rfl) hne
    · simp only [relations.functional_union, if_neg h]
      simp only [true_iff]
      simp only [relations.is_left_functional] at h
      push_neg at h
      obtain ⟨c1, h1, c2, h2, heq, hne⟩ := h
      refine ⟨c1.left, c1.right, c2.right, h1, ?_, hne⟩
      have h3 : (⟨c1.left, c2.right⟩ : Couplet) = c2 := by rw [heq]
      rw [h3]
      exact h2
  · intro h
    simp only [relations.functional_union, if_pos h]

/-- C6 witness: `rel_2 ∪ rel_5` is left-functional, and
`functional_union(rel_2, rel_5)` returns it. -/
theorem functional_union_undef_iff_witness :
    relations.functional_union rel_2 rel_5 = some (rel_2 ∪ rel_5) :=
  (functional_union_undef_iff rel_2 rel_5).2 (by decide)

/-- C7: `Undef` propagates through arbitrarily long chains of the
modelled operations: any multiclan-algebra or relation-algebra expression
that contains an `Undef` literal anywhere evaluates to `Undef`. -/
theorem undef_propagation :
    (∀ e : MExpr, e.hasUndef = true → e.eval = none)
    ∧ (∀ e : RExpr, e.hasUndef = true → e.eval = none) :=
  ⟨mexpr_eval_undef, rexpr_eval_undef⟩

/-- C7 witness: a two-operation chain whose innermost operand is `Undef`
evaluates to `Undef`. -/
theorem undef_propagation_witness :
    (MExpr.comp (MExpr.cross_union (MExpr.lit none) (MExpr.lit (some mc_1)))
      (MExpr.lit (some mc_2))).eval = none :=
  undef_propagation.1 _ rfl

/-- C8: two atoms are equal iff their wrapped values are equal and of the
same type; in particular the atom wrapping integer `1` and the atom
wrapping string `"1"` compare not-equal (and the comparison is a total
boolean function — it neither raises nor coerces). -/
theorem atom_typed_equality :
    (∀ a b : Atom, atomEq a b = true ↔ a = b)
    ∧ atomEq ⟨.int 1⟩ ⟨.str "1"⟩ = false
    ∧ Atom.mk (.int 1) ≠ Atom.mk (.str "1") := by
  refine ⟨fun a b => ?_, rfl, by decide⟩
  obtain ⟨v⟩ := a
  obtain ⟨w⟩ := b
  cases v <;> cases w <;> simp [atomEq, pyEq]

/-- C9: relation transposition is an involution:
`transpose(transpose(R)) = R` for every relation. -/
theorem transpose_transpose :
    ∀ r : Reln, relations.transpose (relations.transpose r) = r := by
  intro r
  simp only [relations.transpose, Finset.image_image]
  have h : relations.transposeCouplet ∘ relations.transposeCouplet = id :=
    funext fun c => rfl
  rw [h, Finset.image_id]

/-- C10: multi-cross-substriction and multi-cross-superstriction give
each result relation the left operand's multiplicity `S(X)` alone —
not the product `S(X)·T(Y)` used by multi-cross-union, as the concrete
contrasts show (2 ≠ 2·3 and 3 ≠ 3·2). -/
theorem multi_cross_striction_left_multiplicity :
    (∀ (s t : Mclan) (x : Reln),
      ((multiclans.cross_substrict s t).count x =
        if ∃ y ∈ t.toFinset, x ⊆ y then s.count x else 0)
      ∧ ((multiclans.cross_superstrict s t).count x =
        if ∃ y ∈ t.toFinset, y ⊆ x then s.count x else 0))
    ∧ (multiclans.cross_substrict mc_sub_demo_s mc_sub_demo_t).count rel_1 = 2
    ∧ (multiclans.cross_substrict mc_sub_demo_s mc_sub_demo_t).count rel_1 ≠
        mc_sub_demo_s.count rel_1 * mc_sub_demo_t.count (rel_1 ∪ rel_2)
    ∧ (multiclans.cross_superstrict mc_sub_demo_t mc_sub_demo_s).count (rel_1 ∪ rel_2) = 3
    ∧ (multiclans.cross_superstrict mc_sub_demo_t mc_sub_demo_s).count (rel_1 ∪ rel_2) ≠
        mc_sub_demo_t.count (rel_1 ∪ rel_2) * mc_sub_demo_s.count rel_1 := by
  refine ⟨fun s t x => ⟨?_, ?_⟩, by decide, by decide, by decide, by decide⟩
  · simp only [multiclans.cross_substrict]
    exact Multiset.count_filter
  · simp only [multiclans.cross_superstrict]
    exact Multiset.count_filter
